import Mathlib

/-!
Shallow embedding of the rate-limiting, access-control, input-validation and
file-freshness logic of `src/bot.py` (a Telegram warehouse-lookup bot),
together with theorems settling the specification claims about it.

Modelling conventions:
* Python strings are Lean `String`s; Python sets of strings are `Finset String`
  where mutation matters and `List String` where only membership matters.
* Timestamps (`datetime` values) are integers counting seconds; `timedelta`
  values are integer numbers of seconds.  The `TIMEZONE_OFFSET` shift is
  applied uniformly to every `datetime.now()` the rate limiter sees, so it
  cancels out of every comparison and is dropped from the model.
* ASCII case conversion models Python `str.lower` / `str.upper`; the
  identities involved are ASCII Telegram handles.
-/

/-- Python `str.lower` (ASCII), applied characterwise. -/
def pyLower (s : String) : String := String.mk (s.data.map Char.toLower)

/-- Python `str.upper` (ASCII), applied characterwise. -/
def pyUpper (s : String) : String := String.mk (s.data.map Char.toUpper)

/-- Python `str.strip()`: remove whitespace from both ends of a string. -/
def pyStrip (s : String) : String :=
  String.mk (((s.data.dropWhile Char.isWhitespace).reverse.dropWhile
    Char.isWhitespace).reverse)

/-- bot.py line 73: the fixed admin set `ALLOWED_USERS`. -/
def ALLOWED_USERS : List String := ["tupikin_ik", "yoptvayou"]

/-- bot.py lines 245-266, `AccessManager.is_allowed`: empty identity denied;
then admin wins; then the deny-list (blacklist) denies; then a non-empty
allow-list (whitelist) is exclusive; otherwise allowed. -/
def is_allowed (username : String) (blacklist whitelist : List String) : Bool :=
  if username = "" then false
  else
    let username_lower := pyLower username
    if (ALLOWED_USERS.map pyLower).contains username_lower then true
    else if blacklist.contains username_lower then false
    else if !whitelist.isEmpty && !(whitelist.contains username_lower) then false
    else true

/-- C10: for every state of the allow/deny lists, `is_allowed` applied to the
empty identity string returns `false`, even when the allow-list is empty and
the empty string is not in the deny-list. -/
theorem c10_empty_identity_denied (blacklist whitelist : List String) :
    is_allowed "" blacklist whitelist = false := rfl

/-- C2 counterexample: the empty identity with empty allow- and deny-lists is
not an admin, is not denied, and the allow-list is empty, yet `is_allowed`
returns `false` where the claim's final clause ("otherwise true, so with an
empty allow-list any non-denied, non-admin identity is allowed") demands
`true`. -/
theorem c2_counterexample :
    (ALLOWED_USERS.map pyLower).contains (pyLower "") = false ∧
    ([] : List String).contains (pyLower "") = false ∧
    is_allowed "" [] [] = false := by
  exact ⟨rfl, rfl, rfl⟩

/-- C2 (amended to non-empty identities): access-control precedence of
`is_allowed` — admin beats deny-list, deny-list beats allow-list, a non-empty
allow-list is exclusive, and otherwise the identity is allowed. -/
theorem c2_is_allowed_precedence (username : String)
    (blacklist whitelist : List String) (hne : username ≠ "") :
    ((ALLOWED_USERS.map pyLower).contains (pyLower username) = true →
      is_allowed username blacklist whitelist = true) ∧
    ((ALLOWED_USERS.map pyLower).contains (pyLower username) = false →
      blacklist.contains (pyLower username) = true →
      is_allowed username blacklist whitelist = false) ∧
    ((ALLOWED_USERS.map pyLower).contains (pyLower username) = false →
      blacklist.contains (pyLower username) = false →
      whitelist ≠ [] → whitelist.contains (pyLower username) = false →
      is_allowed username blacklist whitelist = false) ∧
    ((ALLOWED_USERS.map pyLower).contains (pyLower username) = false →
      blacklist.contains (pyLower username) = false →
      (whitelist = [] ∨ whitelist.contains (pyLower username) = true) →
      is_allowed username blacklist whitelist = true) := by
  refine ⟨?_, ?_, ?_, ?_⟩
  · intro h
    simp at h
    simp [is_allowed, hne]
    exact Or.inl h
  · intro h1 h2
    simp at h1 h2
    simp [is_allowed, hne]
    exact ⟨h1, fun hc => absurd h2 hc⟩
  · intro h1 h2 h3 h4
    simp at h1 h2 h4
    simp [is_allowed, hne]
    exact ⟨h1, fun _ => ⟨h3, h4⟩⟩
  · intro h1 h2 h3
    simp at h1 h2
    rcases h3 with h3 | h3
    · subst h3
      simp [is_allowed, hne]
      exact Or.inr h2
    · simp at h3
      simp [is_allowed, hne]
      exact Or.inr ⟨h2, Or.inr h3⟩

/-- Witness for `c2_is_allowed_precedence`: the non-admin identity "carol",
denied nowhere, is allowed when the allow-list is empty. -/
theorem c2_witness :
    ("carol" : String) ≠ "" ∧ is_allowed "carol" ["eve"] [] = true := by
  refine ⟨by decide, ?_⟩
  exact (c2_is_allowed_precedence "carol" ["eve"] [] (by decide)).2.2.2
    (by decide) (by decide) (Or.inl rfl)

/-- Python `str.replace(ch, "")` for a one-character pattern: remove every
occurrence of `target` from the character list. -/
def removeAll (target : Char) : List Char → List Char
  | [] => []
  | c :: cs => if c = target then removeAll target cs else c :: removeAll target cs

/-- bot.py line 220: `line.strip().lower().replace('@', '')` — the per-line
normalization of `AccessManager.download_list`. -/
def clean_line (line : String) : String :=
  String.mk (removeAll '@' (pyLower (pyStrip line)).data)

/-- bot.py lines 216-223: the line loop of `download_list` — normalize each
line and keep the non-empty results. -/
def process_lines (lines : List String) : List String :=
  lines.filterMap (fun line =>
    let cleaned := clean_line line
    if cleaned = "" then none else some cleaned)

/-- bot.py lines 197-226, `AccessManager.download_list`: the fetched file
content is modelled as its list of lines (`content.splitlines()`); a failed
fetch (the `except` branch) is `none` and yields the empty list. -/
def download_list (fetched : Option (List String)) : List String :=
  match fetched with
  | none => []
  | some lines => process_lines lines

/-- bot.py lines 228-243, one side of `AccessManager.update_lists`: when the
list's file id is configured, the in-memory set is replaced wholesale by the
freshly downloaded list; otherwise the old set is kept. -/
def update_side (old : List String) (fileIdSet : Bool)
    (fetched : Option (List String)) : List String :=
  if fileIdSet then download_list fetched else old

/-- Modelled from the spec's words for comparison (claim C9): trim whitespace,
strip one leading "@", lowercase. -/
def clean_line_spec (line : String) : String :=
  let trimmed := pyStrip line
  let stripped :=
    match trimmed.data with
    | '@' :: rest => String.mk rest
    | _ => trimmed
  pyLower stripped

/-- C9 counterexample: the line "user@name" contains an inner "@", which the
claim says is preserved (only a leading "@" is stripped), but
`download_list`'s normalization removes every "@". -/
theorem c9_counterexample :
    clean_line "user@name" = "username" ∧
    clean_line_spec "user@name" = "user@name" ∧
    ("username" : String) ≠ "user@name" := by
  exact ⟨rfl, rfl, by decide⟩

theorem removeAll_eq_filter (target : Char) (cs : List Char) :
    removeAll target cs = cs.filter (fun c => c ≠ target) := by
  induction cs with
  | nil => rfl
  | cons c cs ih =>
    by_cases h : c = target
    · simp [removeAll, h, ih]
    · simp [removeAll, h, ih]

/-- C9 (amended): each fetched line is normalized by trimming whitespace,
lowercasing, and removing EVERY "@" (not only a leading one); empty results
are ignored; the new set replaces the old one wholesale (independently of the
old value); a failed fetch yields the empty list. -/
theorem c9_list_normalization :
    (∀ (old : List String) (fetched : Option (List String)),
      update_side old true fetched = download_list fetched) ∧
    download_list none = [] ∧
    (∀ line : String,
      clean_line line =
        String.mk (((pyStrip line).data.map Char.toLower).filter
          (fun c => c ≠ '@'))) ∧
    (∀ lines : List String,
      process_lines lines = lines.filterMap (fun l =>
        if clean_line l = "" then none else some (clean_line l))) := by
  refine ⟨fun old fetched => rfl, rfl, fun line => ?_, fun lines => rfl⟩
  show String.mk (removeAll '@' (pyLower (pyStrip line)).data) = _
  rw [removeAll_eq_filter]
  rfl

/-- bot.py line 860-862: the character class `[A-Za-z0-9\-]` of
`extract_number`. -/
def isSNChar (c : Char) : Bool := c.isAlpha || c.isDigit || c = '-'

/-- bot.py lines 849-864, `extract_number`: strip the query, REMOVE every
character outside `[A-Za-z0-9\-]` (`re.sub`), and accept the uppercased
remainder when it is non-empty. -/
def extract_number (query : String) : Option String :=
  if query = "" then none
  else
    let clean := String.mk ((pyStrip query).data.filter isSNChar)
    if clean ≠ "" ∧ clean.data.all isSNChar then some (pyUpper clean) else none

/-- Python `str.split(sep)` for a one-character separator, characterwise. -/
def pySplitChar (sep : Char) : List Char → List (List Char)
  | [] => [[]]
  | c :: rest =>
    let r := pySplitChar sep rest
    if c = sep then [] :: r
    else
      match r with
      | [] => [[c]]
      | g :: gs => (c :: g) :: gs

/-- Python `str.split(sep)` on strings. -/
def pySplit (sep : Char) (s : String) : List String :=
  (pySplitChar sep s.data).map String.mk

/-- bot.py lines 1350-1351 in `handle_search`:
`numbers = [extract_number(p) for p in query.split(',')]` with `None`s
dropped; the request is rejected with the validation message iff this list is
empty. -/
def searchNumbers (query : String) : List String :=
  (pySplit ',' query).filterMap extract_number

/-- C6 counterexample: the query "12#34" contains the disallowed character
"#", but instead of being rejected it is silently cleaned up to the accepted
serial number "1234", which is then searched. -/
theorem c6_counterexample :
    (("12#34" : String).data.all isSNChar) = false ∧
    extract_number "12#34" = some "1234" ∧
    searchNumbers "12#34" = ["1234"] := by
  exact ⟨by decide, by decide, by decide⟩

/-- bot.py lines 77-81, `MESSAGE_LIMITS`: per-period message limits. -/
def minuteLimit : Nat := 10
def hourLimit : Nat := 100
def dayLimit : Nat := 1000

/-- Period durations in seconds (`timedelta(minutes=1)`, `(hours=1)`,
`(days=1)`). -/
def minuteDelta : Int := 60
def hourDelta : Int := 3600
def dayDelta : Int := 86400

/-- The per-identity rate-limiter state of bot.py: the three activity windows
of `user_activity[username]` (chronological, oldest first, matching the
deques), membership in `banned_users`, the `user_ban_times` entry (minutes)
and the `user_ban_start_times` entry (timestamp). -/
structure RLState where
  minuteQ : List Int
  hourQ : List Int
  dayQ : List Int
  banned : Bool
  banTime : Option Int
  banStart : Option Int
deriving Repr, DecidableEq

/-- The state of an identity that has never been seen. -/
def initState : RLState := ⟨[], [], [], false, none, none⟩

/-- bot.py lines 307-313: pop stale entries (`queue[0] <= now - delta`) from
the front of a window. -/
def evict (now delta : Int) : List Int → List Int
  | [] => []
  | t :: ts => if t ≤ now - delta then evict now delta ts else t :: ts

/-- bot.py lines 328-339, `ban_user`: record ban duration
`user_ban_times.get(username, 10) + 10` minutes, ban start `now`, and mark
the identity banned. -/
def ban_user (now : Int) (s : RLState) : RLState :=
  { s with banTime := some (s.banTime.getD 10 + 10),
           banStart := some now,
           banned := true }

/-- bot.py lines 272-326, `check_user_limit`: if banned, auto-unban and accept
when the ban expired (without touching the windows), else reject; otherwise
evict stale entries from all three windows, ban and reject if any window is at
or over its limit, else append `now` to all three windows and accept. -/
def check_user_limit (now : Int) (s : RLState) : Bool × RLState :=
  if s.banned then
    match s.banStart with
    | some ban_start =>
      let ban_duration := 60 * s.banTime.getD 10
      if ban_start + ban_duration ≤ now then
        (true, { s with banned := false, banStart := none, banTime := none })
      else
        (false, s)
    | none =>
      (true, { s with banned := false, banStart := none, banTime := none })
  else
    let mQ := evict now minuteDelta s.minuteQ
    let hQ := evict now hourDelta s.hourQ
    let dQ := evict now dayDelta s.dayQ
    let s1 : RLState := { s with minuteQ := mQ, hourQ := hQ, dayQ := dQ }
    if minuteLimit ≤ mQ.length then (false, ban_user now s1)
    else if hourLimit ≤ hQ.length then (false, ban_user now s1)
    else if dayLimit ≤ dQ.length then (false, ban_user now s1)
    else (true, { s1 with minuteQ := mQ ++ [now], hourQ := hQ ++ [now],
                          dayQ := dQ ++ [now] })

/-- Run a sequence of `check_user_limit` calls at the given times. -/
def runState (ts : List Int) (s : RLState) : RLState :=
  ts.foldl (fun st t => (check_user_limit t st).2) s

/-- The timestamps a sequence of calls records into the activity windows: a
call's time is appended exactly when the identity was not banned and the call
was accepted (the expired-ban acceptance appends nothing). -/
def runRecorded : List Int → RLState → List Int
  | [], _ => []
  | t :: ts, s =>
    let r := check_user_limit t s
    if s.banned = false ∧ r.1 = true then t :: runRecorded ts r.2
    else runRecorded ts r.2

/-- Ten accepted messages at seconds 0..9, then an 11th at second 10 that is
rejected and triggers the first ban. -/
def banScenarioTimes : List Int := [0, 1, 2, 3, 4, 5, 6, 7, 8, 9, 10]

def banScenarioState : RLState := runState banScenarioTimes initState

/-- C1: evaluation of the escalation bug. The FIRST ban of a fresh identity
stores `10 + 10 = 20` minutes and that stored value is what the ban check
enforces: the identity is still rejected 15 minutes after the ban (the claim
and the code's own log say the first ban lasts 10 minutes) and is released
only at 20 minutes.  Moreover `unban_user` pops `user_ban_times`, so the ban
that follows an expired ban stores 20 minutes again — by the claim's
escalation the third ban should last 30 minutes, but it also lasts 20. -/
theorem c1_ban_escalation_bug :
    banScenarioState.banned = true ∧
    banScenarioState.banTime = some 20 ∧
    banScenarioState.banStart = some 10 ∧
    (check_user_limit (10 + 15 * 60) banScenarioState).1 = false ∧
    (check_user_limit (10 + 20 * 60) banScenarioState).1 = true ∧
    (runState [1310, 2000, 2001, 2002, 2003, 2004, 2005, 2006, 2007, 2008,
        2009, 2010] banScenarioState).banTime = some 20 ∧
    (runState [1310, 2000, 2001, 2002, 2003, 2004, 2005, 2006, 2007, 2008,
        2009, 2010, 3400, 4000, 4001, 4002, 4003, 4004, 4005, 4006, 4007,
        4008, 4009, 4010] banScenarioState).banTime = some 20 := by
  exact ⟨by decide, by decide, by decide, by decide, by decide, by decide,
    by decide⟩

/-- C5 counterexample: after ten messages in one minute and the rejected 11th
(`banScenarioState`), a 12th message 11 minutes later is REJECTED (the stored
first-ban duration is 20 minutes, not 10), and a 12th message sent after the
ban really expires (21 minutes later) is accepted but NOT appended to the
activity windows — the windows still hold exactly the ten old timestamps. -/
theorem c5_counterexample :
    (check_user_limit (10 + 11 * 60) banScenarioState).1 = false ∧
    (check_user_limit (10 + 21 * 60) banScenarioState).1 = true ∧
    (check_user_limit (10 + 21 * 60) banScenarioState).2.minuteQ =
      [0, 1, 2, 3, 4, 5, 6, 7, 8, 9] ∧
    (check_user_limit (10 + 21 * 60) banScenarioState).2.hourQ =
      [0, 1, 2, 3, 4, 5, 6, 7, 8, 9] ∧
    (check_user_limit (10 + 21 * 60) banScenarioState).2.dayQ =
      [0, 1, 2, 3, 4, 5, 6, 7, 8, 9] := by
  exact ⟨by decide, by decide, by decide, by decide, by decide⟩

/-- C5 (amended): when the ban of a banned identity has expired at the time of
a check (`now` at or past ban start plus the STORED duration), the check
auto-clears the ban and accepts the message, but the accepted message is NOT
recorded: the three activity windows are left exactly as they were. -/
theorem c5_expired_ban_accept_unrecorded (s : RLState) (now b d : Int)
    (hb : s.banned = true) (hst : s.banStart = some b) (ht : s.banTime = some d)
    (hexp : b + 60 * d ≤ now) :
    check_user_limit now s =
      (true, { s with banned := false, banStart := none, banTime := none }) := by
  simp [check_user_limit, hb, hst, ht, hexp]

/-- Witness for `c5_expired_ban_accept_unrecorded` at the concrete
post-ban state. -/
theorem c5_witness :
    banScenarioState.banned = true ∧
    banScenarioState.banStart = some 10 ∧
    banScenarioState.banTime = some 20 ∧
    ((10 : Int) + 60 * 20 ≤ 1270) ∧
    check_user_limit 1270 banScenarioState =
      (true, { banScenarioState with banned := false, banStart := none, banTime := none }) := by
  exact ⟨by decide, by decide, by decide, by decide,
    c5_expired_ban_accept_unrecorded banScenarioState 1270 10 20
      (by decide) (by decide) (by decide) (by decide)⟩

/-- Number of recorded timestamps falling in the trailing window `(t - delta, t]`. -/
def countWin (R : List Int) (t delta : Int) : Nat :=
  (R.filter (fun x => decide (t - delta < x ∧ x ≤ t))).length

/-- Invariant tying one activity window `q` to the full list `R` of recorded
timestamps: `q` is a suffix of `R`, every dropped (evicted) element is stale
relative to `lastT`, and the window holds at most `limit` entries. -/
def PeriodInv (q R : List Int) (lastT delta : Int) (limit : Nat) : Prop :=
  (∃ pre, R = pre ++ q ∧ ∀ x ∈ pre, x + delta ≤ lastT) ∧ q.length ≤ limit

/-- Every trailing window of length `delta` over `R` holds at most `limit`
timestamps. -/
def WinBound (R : List Int) (delta : Int) (limit : Nat) : Prop :=
  ∀ t : Int, countWin R t delta ≤ limit

/-- Full rate-limiter invariant for one identity after the last call at
`lastT`, with `R` the list of recorded timestamps so far. -/
def RLInv (s : RLState) (R : List Int) (lastT : Int) : Prop :=
  (∀ x ∈ R, x ≤ lastT) ∧
  PeriodInv s.minuteQ R lastT minuteDelta minuteLimit ∧
  PeriodInv s.hourQ R lastT hourDelta hourLimit ∧
  PeriodInv s.dayQ R lastT dayDelta dayLimit ∧
  WinBound R minuteDelta minuteLimit ∧
  WinBound R hourDelta hourLimit ∧
  WinBound R dayDelta dayLimit

theorem evict_decompose (now delta : Int) (q : List Int) :
    ∃ d, q = d ++ evict now delta q ∧ ∀ x ∈ d, x + delta ≤ now := by
  induction q with
  | nil => exact ⟨[], rfl, by simp⟩
  | cons t ts ih =>
    by_cases h : t ≤ now - delta
    · obtain ⟨d, hd, hall⟩ := ih
      refine ⟨t :: d, ?_, ?_⟩
      · simp only [evict, if_pos h]
        rw [List.cons_append, ← hd]
      · intro x hx
        rcases List.mem_cons.mp hx with hx | hx
        · subst hx
          exact le_sub_iff_add_le.mp h
        · exact hall x hx
    · exact ⟨[], by simp [evict, h], by simp⟩

theorem evict_length_le (now delta : Int) (q : List Int) :
    (evict now delta q).length ≤ q.length := by
  induction q with
  | nil => simp [evict]
  | cons t ts ih =>
    by_cases h : t ≤ now - delta
    · simp only [evict, if_pos h]
      exact le_trans ih (by simp)
    · simp [evict, h]

theorem length_filter_mono {α : Type} (l : List α) (p q : α → Bool)
    (h : ∀ x ∈ l, p x = true → q x = true) :
    (l.filter p).length ≤ (l.filter q).length := by
  induction l with
  | nil => simp
  | cons a l ih =>
    have ih' := ih (fun x hx hp => h x (List.mem_cons_of_mem a hx) hp)
    by_cases hp : p a = true
    · have hq := h a (List.mem_cons_self a l) hp
      simp only [List.filter, hp, hq]
      simpa using ih'
    · by_cases hq : q a = true
      · simp only [List.filter, Bool.not_eq_true] at hp
        simp only [List.filter, hp, hq]
        simp only [List.length_cons]
        omega
      · simp only [Bool.not_eq_true] at hp hq
        simp only [List.filter, hp, hq]
        exact ih'

theorem countWin_append_single (R : List Int) (x t delta : Int) :
    countWin (R ++ [x]) t delta =
      countWin R t delta + (if t - delta < x ∧ x ≤ t then 1 else 0) := by
  unfold countWin
  rw [List.filter_append]
  by_cases h : t - delta < x ∧ x ≤ t
  · simp [h]
  · simp [h]

theorem countWin_le_of_split (R pre e : List Int) (now delta : Int)
    (hsplit : R = pre ++ e) (hpre : ∀ x ∈ pre, x + delta ≤ now) :
    countWin R now delta ≤ e.length := by
  subst hsplit
  unfold countWin
  rw [List.filter_append]
  have hnil : pre.filter (fun x => decide (now - delta < x ∧ x ≤ now)) = [] := by
    rw [List.filter_eq_nil_iff]
    intro a ha
    have := hpre a ha
    simp only [decide_eq_true_eq, not_and]
    intro hlt
    omega
  rw [hnil]
  simpa using List.length_filter_le _ e

theorem countWin_mono_to_now (R : List Int) (lastT now t delta : Int)
    (hR : ∀ x ∈ R, x ≤ lastT) (hle : lastT ≤ now) (hnt : now ≤ t) :
    countWin R t delta ≤ countWin R now delta := by
  apply length_filter_mono
  intro x hx hp
  simp only [decide_eq_true_eq] at hp ⊢
  have hxl := hR x hx
  constructor
  · omega
  · omega

theorem periodInv_evict (q R : List Int) (lastT now delta : Int) (lim : Nat)
    (h : PeriodInv q R lastT delta lim) (hle : lastT ≤ now) :
    PeriodInv (evict now delta q) R now delta lim := by
  obtain ⟨⟨pre, hRq, hpre⟩, hlen⟩ := h
  obtain ⟨d, hq, hd⟩ := evict_decompose now delta q
  refine ⟨⟨pre ++ d, ?_, ?_⟩, ?_⟩
  · rw [List.append_assoc, ← hq]
    exact hRq
  · intro x hx
    rcases List.mem_append.mp hx with hx | hx
    · exact le_trans (hpre x hx) hle
    · exact hd x hx
  · exact le_trans (evict_length_le now delta q) hlen

theorem periodInv_time_mono (q R : List Int) (lastT now delta : Int) (lim : Nat)
    (h : PeriodInv q R lastT delta lim) (hle : lastT ≤ now) :
    PeriodInv q R now delta lim := by
  obtain ⟨⟨pre, hRq, hpre⟩, hlen⟩ := h
  exact ⟨⟨pre, hRq, fun x hx => le_trans (hpre x hx) hle⟩, hlen⟩

theorem periodInv_append (q R : List Int) (now delta : Int) (lim : Nat)
    (h : PeriodInv q R now delta lim) (hlen : q.length < lim) :
    PeriodInv (q ++ [now]) (R ++ [now]) now delta lim := by
  obtain ⟨⟨pre, hRq, hpre⟩, _⟩ := h
  refine ⟨⟨pre, ?_, hpre⟩, ?_⟩
  · rw [hRq, List.append_assoc]
  · simp only [List.length_append, List.length_cons, List.length_nil]
    omega

theorem winBound_append (R q : List Int) (lastT now delta : Int) (lim : Nat)
    (h : PeriodInv q R now delta lim)
    (hR : ∀ x ∈ R, x ≤ lastT) (hle : lastT ≤ now)
    (hlen : q.length < lim) (hW : WinBound R delta lim) :
    WinBound (R ++ [now]) delta lim := by
  intro t
  rw [countWin_append_single]
  by_cases hwin : t - delta < now ∧ now ≤ t
  · obtain ⟨⟨pre, hsplit, hpre⟩, _⟩ := h
    have h1 : countWin R t delta ≤ countWin R now delta :=
      countWin_mono_to_now R lastT now t delta hR hle hwin.2
    have h2 : countWin R now delta ≤ q.length :=
      countWin_le_of_split R pre q now delta hsplit hpre
    have h3 : countWin R t delta < lim := by omega
    simp only [if_pos hwin]
    omega
  · simp only [if_neg hwin]
    simpa using hW t

theorem rlInv_time_advance (s s' : RLState) (R : List Int) (lastT now : Int)
    (hm : s'.minuteQ = s.minuteQ) (hh : s'.hourQ = s.hourQ)
    (hd : s'.dayQ = s.dayQ)
    (hInv : RLInv s R lastT) (hle : lastT ≤ now) :
    RLInv s' R now := by
  obtain ⟨hR, h1, h2, h3, w1, w2, w3⟩ := hInv
  refine ⟨fun x hx => le_trans (hR x hx) hle, ?_, ?_, ?_, w1, w2, w3⟩
  · rw [hm]; exact periodInv_time_mono _ _ _ _ _ _ h1 hle
  · rw [hh]; exact periodInv_time_mono _ _ _ _ _ _ h2 hle
  · rw [hd]; exact periodInv_time_mono _ _ _ _ _ _ h3 hle

theorem check_step_inv (now : Int) (s : RLState) (R : List Int) (lastT : Int)
    (hInv : RLInv s R lastT) (hle : lastT ≤ now) :
    RLInv (check_user_limit now s).2
      (if s.banned = false ∧ (check_user_limit now s).1 = true then R ++ [now]
       else R) now := by
  by_cases hb : s.banned = true
  · have hcond : ¬(s.banned = false ∧ (check_user_limit now s).1 = true) := by
      simp [hb]
    rw [if_neg hcond]
    refine rlInv_time_advance s _ R lastT now ?_ ?_ ?_ hInv hle
    all_goals
      simp only [check_user_limit, hb, if_true]
      cases s.banStart
      · rfl
      · dsimp only
        split
        · rfl
        · rfl
  · have hb' : s.banned = false := by
      cases hbv : s.banned
      · rfl
      · exact absurd hbv hb
    obtain ⟨hR, h1, h2, h3, w1, w2, w3⟩ := hInv
    have e1 := periodInv_evict _ _ _ now _ _ h1 hle
    have e2 := periodInv_evict _ _ _ now _ _ h2 hle
    have e3 := periodInv_evict _ _ _ now _ _ h3 hle
    by_cases c1 : minuteLimit ≤ (evict now minuteDelta s.minuteQ).length
    · have hck : check_user_limit now s = (false, ban_user now
          { s with minuteQ := evict now minuteDelta s.minuteQ,
                   hourQ := evict now hourDelta s.hourQ,
                   dayQ := evict now dayDelta s.dayQ }) := by
        simp [check_user_limit, hb', c1]
      rw [hck]
      simp only [Bool.false_eq_true, and_false, if_false, false_and, ite_false]
      exact ⟨fun x hx => le_trans (hR x hx) hle, e1, e2, e3, w1, w2, w3⟩
    · by_cases c2 : hourLimit ≤ (evict now hourDelta s.hourQ).length
      · have hck : check_user_limit now s = (false, ban_user now
            { s with minuteQ := evict now minuteDelta s.minuteQ,
                     hourQ := evict now hourDelta s.hourQ,
                     dayQ := evict now dayDelta s.dayQ }) := by
          simp [check_user_limit, hb', c1, c2]
        rw [hck]
        simp only [Bool.false_eq_true, and_false, if_false, false_and, ite_false]
        exact ⟨fun x hx => le_trans (hR x hx) hle, e1, e2, e3, w1, w2, w3⟩
      · by_cases c3 : dayLimit ≤ (evict now dayDelta s.dayQ).length
        · have hck : check_user_limit now s = (false, ban_user now
              { s with minuteQ := evict now minuteDelta s.minuteQ,
                       hourQ := evict now hourDelta s.hourQ,
                       dayQ := evict now dayDelta s.dayQ }) := by
            simp [check_user_limit, hb', c1, c2, c3]
          rw [hck]
          simp only [Bool.false_eq_true, and_false, if_false, false_and,
            ite_false]
          exact ⟨fun x hx => le_trans (hR x hx) hle, e1, e2, e3, w1, w2, w3⟩
        · have hck : check_user_limit now s = (true,
              { s with minuteQ := evict now minuteDelta s.minuteQ ++ [now],
                       hourQ := evict now hourDelta s.hourQ ++ [now],
                       dayQ := evict now dayDelta s.dayQ ++ [now] }) := by
            simp [check_user_limit, hb', c1, c2, c3]
          rw [hck]
          simp only [hb', true_and, if_pos rfl]
          have l1 : (evict now minuteDelta s.minuteQ).length < minuteLimit := by
            omega
          have l2 : (evict now hourDelta s.hourQ).length < hourLimit := by
            omega
          have l3 : (evict now dayDelta s.dayQ).length < dayLimit := by omega
          refine ⟨?_, ?_, ?_, ?_, ?_, ?_, ?_⟩
          · intro x hx
            rcases List.mem_append.mp hx with hx | hx
            · exact le_trans (hR x hx) hle
            · simp at hx
              omega
          · exact periodInv_append _ _ _ _ _ e1 l1
          · exact periodInv_append _ _ _ _ _ e2 l2
          · exact periodInv_append _ _ _ _ _ e3 l3
          · exact winBound_append R _ lastT now _ _ e1 hR hle l1 w1
          · exact winBound_append R _ lastT now _ _ e2 hR hle l2 w2
          · exact winBound_append R _ lastT now _ _ e3 hR hle l3 w3

theorem run_inv (ts : List Int) : ∀ (s : RLState) (R : List Int) (lastT : Int),
    RLInv s R lastT → List.Chain' (· ≤ ·) (lastT :: ts) →
    RLInv (runState ts s) (R ++ runRecorded ts s) (ts.getLastD lastT) := by
  induction ts with
  | nil =>
    intro s R lastT hInv _
    simpa [runState, runRecorded] using hInv
  | cons t ts ih =>
    intro s R lastT hInv hchain
    have hle : lastT ≤ t := (List.chain'_cons.mp hchain).1
    have hchain' : List.Chain' (· ≤ ·) (t :: ts) := (List.chain'_cons.mp hchain).2
    have hstep := check_step_inv t s R lastT hInv hle
    have hrs : runState (t :: ts) s = runState ts (check_user_limit t s).2 := rfl
    by_cases hc : s.banned = false ∧ (check_user_limit t s).1 = true
    · have hrec : runRecorded (t :: ts) s =
          t :: runRecorded ts (check_user_limit t s).2 := by
        simp [runRecorded, hc]
      rw [if_pos hc] at hstep
      have := ih (check_user_limit t s).2 (R ++ [t]) t hstep hchain'
      rw [hrs, hrec]
      have hgl : (t :: ts).getLastD lastT = ts.getLastD t := by
        cases ts <;> rfl
      rw [hgl]
      have happ : R ++ t :: runRecorded ts (check_user_limit t s).2 =
          (R ++ [t]) ++ runRecorded ts (check_user_limit t s).2 := by
        simp
      rw [happ]
      exact this
    · have hrec : runRecorded (t :: ts) s =
          runRecorded ts (check_user_limit t s).2 := by
        simp only [runRecorded]
        rw [if_neg hc]
      rw [if_neg hc] at hstep
      have := ih (check_user_limit t s).2 R t hstep hchain'
      rw [hrs, hrec]
      have hgl : (t :: ts).getLastD lastT = ts.getLastD t := by
        cases ts <;> rfl
      rw [hgl]
      exact this

theorem rlInv_init (lastT : Int) : RLInv initState [] lastT := by
  refine ⟨by simp, ?_, ?_, ?_, ?_, ?_, ?_⟩
  · exact ⟨⟨[], rfl, by simp⟩, by simp [initState]⟩
  · exact ⟨⟨[], rfl, by simp⟩, by simp [initState]⟩
  · exact ⟨⟨[], rfl, by simp⟩, by simp [initState]⟩
  · intro t; simp [countWin]
  · intro t; simp [countWin]
  · intro t; simp [countWin]

/-- C3: for every nondecreasing sequence of call times, the check-and-record
operation never records more than the configured limit of timestamps within
any trailing period window: at most 10 in any trailing minute, 100 in any
trailing hour and 1000 in any trailing day. -/
theorem c3_rate_limit_window_bound (ts : List Int)
    (hmono : List.Chain' (· ≤ ·) ts) (t : Int) :
    countWin (runRecorded ts initState) t minuteDelta ≤ minuteLimit ∧
    countWin (runRecorded ts initState) t hourDelta ≤ hourLimit ∧
    countWin (runRecorded ts initState) t dayDelta ≤ dayLimit := by
  have hchain : List.Chain' (· ≤ ·) (ts.headD 0 :: ts) := by
    cases ts with
    | nil => simp
    | cons a l => exact List.chain'_cons.mpr ⟨le_refl a, hmono⟩
  have h := run_inv ts initState [] (ts.headD 0) (rlInv_init _) hchain
  obtain ⟨_, _, _, _, wm, wh, wd⟩ := h
  simp only [List.nil_append] at wm wh wd
  exact ⟨wm t, wh t, wd t⟩

/-- Witness for `c3_rate_limit_window_bound` on a concrete nondecreasing
trace. -/
theorem c3_witness :
    List.Chain' (· ≤ ·) [0, 1, 1, 5, 30] ∧
    (countWin (runRecorded [0, 1, 1, 5, 30] initState) 30 minuteDelta ≤
        minuteLimit ∧
      countWin (runRecorded [0, 1, 1, 5, 30] initState) 30 hourDelta ≤
        hourLimit ∧
      countWin (runRecorded [0, 1, 1, 5, 30] initState) 30 dayDelta ≤
        dayLimit) :=
  ⟨by norm_num [List.chain'_cons],
    c3_rate_limit_window_bound [0, 1, 1, 5, 30]
      (by norm_num [List.chain'_cons]) 30⟩

/-- bot.py lines 819-825 in `preload_latest_file`: whether the resolved remote
file must be downloaded — `download_needed` starts true and is cleared when a
local copy exists whose mtime is at or past the Drive modified time (`none`
models a missing local copy). -/
def preload_download_needed (driveTime : Int) (localMtime : Option Int) : Bool :=
  match localMtime with
  | none => true
  | some localTime => if driveTime ≤ localTime then false else true

/-- bot.py lines 1404-1412 in `handle_search`: once the current Drive modified
time is obtained (the local copy exists at this point), download iff the
recorded `LAST_FILE_DRIVE_TIME` is `None` or strictly older than the current
time; on a successful download the recorded time becomes the current one.
Returns (download attempted, new recorded time). -/
def handle_search_refresh (currentDriveTime : Int) (lastDriveTime : Option Int)
    (downloadOk : Bool) : Bool × Option Int :=
  match lastDriveTime with
  | none =>
    (true, if downloadOk then some currentDriveTime else none)
  | some t =>
    if t < currentDriveTime then
      (true, if downloadOk then some currentDriveTime else some t)
    else (false, some t)

/-- C4: a download occurs iff the remote timestamp is strictly newer than the
recorded local state or no local copy exists — at startup the comparison is
against the local file's mtime, in `handle_search` against the recorded Drive
time — and a second lookup with an unchanged remote file after a successful
refresh triggers no second download. -/
theorem c4_file_freshness :
    (∀ driveTime : Int, preload_download_needed driveTime none = true) ∧
    (∀ driveTime localTime : Int,
      preload_download_needed driveTime (some localTime) =
        decide (localTime < driveTime)) ∧
    (∀ (cur : Int) (ok : Bool), (handle_search_refresh cur none ok).1 = true) ∧
    (∀ (cur r0 : Int) (ok : Bool),
      (handle_search_refresh cur (some r0) ok).1 = decide (r0 < cur)) ∧
    (∀ (cur : Int) (last : Option Int),
      (handle_search_refresh cur
        (handle_search_refresh cur last true).2 true).1 = false) := by
  refine ⟨fun _ => rfl, ?_, fun _ _ => rfl, ?_, ?_⟩
  · intro driveTime localTime
    by_cases h : driveTime ≤ localTime
    · simp [preload_download_needed, h]
      try omega
    · simp [preload_download_needed, h]
      try omega
  · intro cur r0 ok
    by_cases h : r0 < cur
    · simp [handle_search_refresh, h]
    · simp [handle_search_refresh, h]
  · intro cur last
    cases last with
    | none => simp [handle_search_refresh]
    | some t =>
      by_cases h : t < cur
      · simp [handle_search_refresh, h]
      · simp [handle_search_refresh, h]

/-- The in-memory access lists of `AccessManager`, as the mutation commands
see them. -/
structure AccessLists where
  blacklist : List String
  whitelist : List String
deriving Repr, DecidableEq

/-- The user-visible outcome of one `/blacklist` admin invocation. -/
inductive ListCmdReply
  | shown
  | noUsernames
  | noWritePermission
  | silentReturn
  | unknownAction
deriving Repr, DecidableEq

/-- bot.py lines 501-638, `manage_blacklist`, for an admin call with an action
argument: "show" replies and returns (lines 532-546); for "add"/"remove" the
permission check may reply (lines 561-564), but the warning and `return` of
lines 565-566 sit OUTSIDE the permission `if`, so this branch always returns
there, before any mutation; any other action falls through to the dedented
`if action == "add"` / `elif action == "remove"` blocks (lines 568-633),
which cannot match, and ends at the "unknown action" reply (lines 634-638).
The in-memory lists are returned unchanged on every path. -/
def manage_blacklist (action : String) (usernames : List String)
    (canWriteWhitelist canWriteBlacklist : Bool) (ls : AccessLists) :
    AccessLists × ListCmdReply :=
  if action = "show" then (ls, .shown)
  else if action = "add" ∨ action = "remove" then
    if usernames = [] then (ls, .noUsernames)
    else if !(canWriteWhitelist && canWriteBlacklist) then
      (ls, .noWritePermission)
    else (ls, .silentReturn)
  else (ls, .unknownAction)

/-- bot.py lines 568-603: the add-block of `manage_blacklist` — the mutation
the spec describes (append each new username to the blacklist and auto-remove
it from the whitelist) — which the unconditional `return` at line 566 makes
unreachable. -/
def blacklist_add_block (usernames : List String) (ls : AccessLists) :
    AccessLists :=
  usernames.foldl (fun acc u =>
    if acc.blacklist.contains u then acc
    else { blacklist := acc.blacklist ++ [u],
           whitelist := acc.whitelist.filter (fun w => w ≠ u) }) ls

/-- C7: evaluation of the dead-code bug — `manage_blacklist` never mutates the
in-memory lists for ANY action (in particular `add` leaves both lists
untouched), while the unreachable add-block would have performed the
deny-add/allow-remove the claim describes. -/
theorem c7_blacklist_add_unreachable :
    (∀ (action : String) (usernames : List String) (canW canB : Bool)
        (ls : AccessLists),
      (manage_blacklist action usernames canW canB ls).1 = ls) ∧
    manage_blacklist "add" ["bob"] true true ⟨[], ["bob", "carol"]⟩ =
      (⟨[], ["bob", "carol"]⟩, ListCmdReply.silentReturn) ∧
    blacklist_add_block ["bob"] ⟨[], ["bob", "carol"]⟩ =
      ⟨["bob"], ["carol"]⟩ := by
  refine ⟨?_, by decide, by decide⟩
  intro action usernames canW canB ls
  unfold manage_blacklist
  split
  · rfl
  · split
    · split
      · rfl
      · split
        · rfl
        · rfl
    · rfl

/-- bot.py lines 436-443: the add loop of `manage_whitelist` — insert each
username not already present, returning the new set together with the `added`
list in insertion order. -/
def whitelist_add_go (wl : Finset String) :
    List String → Finset String × List String
  | [] => (wl, [])
  | u :: us =>
    if u ∈ wl then whitelist_add_go wl us
    else
      let r := whitelist_add_go (insert u wl) us
      (r.1, u :: r.2)

/-- bot.py lines 466-473: the remove loop of `manage_whitelist` — discard each
username that is present, returning the new set together with the `removed`
list in removal order. -/
def whitelist_remove_go (wl : Finset String) :
    List String → Finset String × List String
  | [] => (wl, [])
  | u :: us =>
    if u ∈ wl then
      let r := whitelist_remove_go (wl.erase u) us
      (r.1, u :: r.2)
    else whitelist_remove_go wl us

/-- bot.py lines 415-493, `manage_whitelist` add/remove: if the write
permission precheck fails nothing is mutated; otherwise the in-memory set is
mutated and written back, and on write failure the mutation is rolled back
element by element (lines 458-460 discard the `added`, lines 487-490 re-add
the `removed`).  Returns the final in-memory set and whether success was
reported. -/
def manage_whitelist_op (isAdd : Bool) (usernames : List String)
    (canWrite writeOk : Bool) (wl : Finset String) : Finset String × Bool :=
  if !canWrite then (wl, false)
  else if isAdd then
    let r := whitelist_add_go wl usernames
    if writeOk then (r.1, true)
    else (r.2.foldl (fun acc u => acc.erase u) r.1, false)
  else
    let r := whitelist_remove_go wl usernames
    if writeOk then (r.1, true)
    else (r.2.foldl (fun acc u => insert u acc) r.1, false)

theorem foldl_erase_comm (l : List String) (s : Finset String) (u : String) :
    l.foldl (fun acc x => acc.erase x) (s.erase u) =
      (l.foldl (fun acc x => acc.erase x) s).erase u := by
  induction l generalizing s with
  | nil => rfl
  | cons a l ih =>
    simp only [List.foldl_cons]
    rw [Finset.erase_right_comm]
    exact ih (s.erase a)

theorem foldl_insert_comm (l : List String) (s : Finset String) (u : String) :
    l.foldl (fun acc x => insert x acc) (insert u s) =
      insert u (l.foldl (fun acc x => insert x acc) s) := by
  induction l generalizing s with
  | nil => rfl
  | cons a l ih =>
    simp only [List.foldl_cons]
    rw [Finset.Insert.comm]
    exact ih (insert a s)

theorem whitelist_add_rollback (us : List String) : ∀ wl : Finset String,
    (whitelist_add_go wl us).2.foldl (fun acc u => acc.erase u)
      (whitelist_add_go wl us).1 = wl := by
  induction us with
  | nil => intro wl; rfl
  | cons u us ih =>
    intro wl
    by_cases h : u ∈ wl
    · simp only [whitelist_add_go, if_pos h]
      exact ih wl
    · simp only [whitelist_add_go, if_neg h]
      simp only [List.foldl_cons]
      rw [foldl_erase_comm, ih (insert u wl)]
      exact Finset.erase_insert h

theorem whitelist_remove_rollback (us : List String) : ∀ wl : Finset String,
    (whitelist_remove_go wl us).2.foldl (fun acc u => insert u acc)
      (whitelist_remove_go wl us).1 = wl := by
  induction us with
  | nil => intro wl; rfl
  | cons u us ih =>
    intro wl
    by_cases h : u ∈ wl
    · simp only [whitelist_remove_go, if_pos h]
      simp only [List.foldl_cons]
      rw [foldl_insert_comm, ih (wl.erase u)]
      exact Finset.insert_erase h
    · simp only [whitelist_remove_go, if_neg h]
      exact ih wl

/-- C8: whenever a `manage_whitelist` add or remove reports failure, the
in-memory allow-list equals its pre-operation value — every write-back
failure is rolled back element by element. -/
theorem c8_whitelist_rollback (isAdd : Bool) (usernames : List String)
    (canWrite writeOk : Bool) (wl : Finset String)
    (hfail :
      (manage_whitelist_op isAdd usernames canWrite writeOk wl).2 = false) :
    (manage_whitelist_op isAdd usernames canWrite writeOk wl).1 = wl := by
  cases canWrite with
  | false => simp [manage_whitelist_op]
  | true =>
    cases writeOk with
    | true =>
      exfalso
      cases isAdd <;> simp [manage_whitelist_op] at hfail
    | false =>
      cases isAdd with
      | true =>
        simp only [manage_whitelist_op, Bool.not_true, Bool.false_eq_true,
          if_false, if_true]
        exact whitelist_add_rollback usernames wl
      | false =>
        simp only [manage_whitelist_op, Bool.not_true, Bool.false_eq_true,
          if_false, if_true]
        exact whitelist_remove_rollback usernames wl

/-- Witness for `c8_whitelist_rollback`: a failing add of "dave" leaves the
singleton allow-list \x7b"alice"\x7d unchanged. -/
theorem c8_witness :
    (manage_whitelist_op true ["dave"] true false {"alice"}).2 = false ∧
    (manage_whitelist_op true ["dave"] true false {"alice"}).1 = {"alice"} :=
  ⟨by decide,
    c8_whitelist_rollback true ["dave"] true false {"alice"} (by decide)⟩

theorem filter_all_self {α : Type} (p : α → Bool) (l : List α) :
    (l.filter p).all p = true := by
  induction l with
  | nil => rfl
  | cons a l ih =>
    by_cases h : p a = true
    · simp [List.filter, h, ih]
    · simp only [Bool.not_eq_true] at h
      simp [List.filter, h, ih]

/-- C6 (amended): a query part is rejected only when it contains NO allowed
character at all (after stripping, the `[A-Za-z0-9\-]`-filtered remainder is
empty); a part that mixes disallowed and allowed characters is silently
cleaned to its allowed characters, uppercased and accepted; the validation
reply is sent iff every comma-separated part cleans to empty. -/
theorem c6_malformed_query_cleaned :
    (∀ q : String, extract_number q =
      (if ((pyStrip q).data.filter isSNChar) = [] then none
       else some (pyUpper (String.mk ((pyStrip q).data.filter isSNChar))))) ∧
    (∀ q : String, searchNumbers q = [] ↔
      ((pySplit ',' q).all (fun p => (extract_number p).isNone)) = true) := by
  constructor
  · intro q
    by_cases hq : q = ""
    · subst hq
      rfl
    · unfold extract_number
      rw [if_neg hq]
      by_cases hL : (pyStrip q).data.filter isSNChar = []
      · rw [if_pos hL]
        have hclean : String.mk ((pyStrip q).data.filter isSNChar) = "" := by
          rw [hL]
        simp [hclean]
      · rw [if_neg hL]
        have hclean : String.mk ((pyStrip q).data.filter isSNChar) ≠ "" := by
          intro hc
          apply hL
          have : (String.mk ((pyStrip q).data.filter isSNChar)).data =
              ("" : String).data := by rw [hc]
          simpa using this
        rw [if_pos ⟨hclean, filter_all_self isSNChar (pyStrip q).data⟩]
  · intro q
    rw [searchNumbers, List.filterMap_eq_nil_iff]
    simp [Option.isNone_iff_eq_none]
